import Mathlib

/-!
Verification development for the gunyah-test-vmm repository.

The Rust sources are shallowly embedded: u64 values are modelled as Nat
(with explicit saturation where the source uses saturating_add; u64
subtraction only occurs where the source guarantees no underflow, except
where noted), fallible code returns Except or the HRes type below, and
the BTreeMap of the Bus is modelled as a list strictly sorted by base.
-/

namespace GunyahVMM

/-- Largest u64 value, 2^64 - 1. -/
def U64MAX : Nat := 2 ^ 64 - 1

/-- u64 saturating_add: the sum clamped to U64MAX. -/
def satAdd (a b : Nat) : Nat := min (a + b) U64MAX

/-- Result of running a fallible, possibly-aborting piece of code:
ok, an error value (anyhow::Result style, message only), or a panic
(todo!, unreachable!, assert! or slice-length mismatch). -/
inductive HRes (α : Type) where
  | ok (a : α)
  | err (msg : String)
  | panicked
deriving DecidableEq

/-- src/vmm/src/bus.rs AccessId: identity of the entity accessing the bus. -/
inductive AccessId where
  | vmmUserspace
  | vcpu (id : Nat)
deriving DecidableEq

/-- src/vmm/src/bus.rs BusAccessInfo. -/
structure BusAccessInfo where
  offset : Nat
  address : Nat
  id : AccessId
deriving DecidableEq

/-- A BusDevice trait object: label plus read/write handlers and the
memory_regions query.  Handlers are pure functions from the access info
(and requested length resp. data) to an HRes outcome; a read returns the
bytes it placed in the caller buffer. -/
structure BusDev where
  label : String
  read : BusAccessInfo → Nat → HRes (List Nat)
  write : BusAccessInfo → List Nat → HRes Unit
  memory_regions : Option (List Nat)

/-- src/vmm/src/bus.rs BusDeviceEntry: caller-locked (OuterSync) or
self-synchronized (InnerSync) device. -/
inductive BusDeviceEntry where
  | outerSync (d : BusDev)
  | innerSync (d : BusDev)

/-- The underlying device of either entry variant. -/
def BusDeviceEntry.dev : BusDeviceEntry → BusDev
  | .outerSync d => d
  | .innerSync d => d

/-- src/vmm/src/bus.rs BusRange. -/
structure BusRange where
  base : Nat
  len : Nat
deriving DecidableEq

/-- BusRange::overlaps: true if there is overlap with the given range,
computed with u64 saturating_add exactly as in the source. -/
def BusRange.overlaps (r : BusRange) (base len : Nat) : Bool :=
  decide (r.base < satAdd base len) && decide (base < satAdd r.base r.len)

/-- BusRange::contains: true if addr is within the range (saturating). -/
def BusRange.contains (r : BusRange) (addr : Nat) : Bool :=
  decide (r.base ≤ addr) && decide (addr < satAdd r.base r.len)

/-- One key/value pair of the Bus BTreeMap. BusRange keys compare by base
only, so the map is modelled as a list strictly sorted by base. -/
structure BusEntryRec where
  range : BusRange
  entry : BusDeviceEntry

/-- src/vmm/src/bus.rs Bus: the device table plus the accessor identity. -/
structure Bus where
  devices : List BusEntryRec
  access_id : AccessId

/-- Bus::new. -/
def Bus.new : Bus := { devices := [], access_id := .vmmUserspace }

/-- Bus::set_access_id (returns a clone sharing the same table). -/
def Bus.set_access_id (bus : Bus) (id : AccessId) : Bus :=
  { bus with access_id := id }

/-- Bus::first_before: devices.range(..=BusRange(addr,1)).next_back(), i.e.
the entry with the greatest base that is at most addr.  On the
sorted-by-base list this is the last entry with base ≤ addr. -/
def firstBefore : List BusEntryRec → Nat → Option BusEntryRec
  | [], _ => none
  | e :: rest, addr =>
    match firstBefore rest addr with
    | some r => some r
    | none => if e.range.base ≤ addr then some e else none

/-- Bus::get_device: predecessor search, then offset check.  Note the
source computes offset = addr - base (no underflow: base ≤ addr) and owns
iff offset < len, which in Nat is exactly addr < base + len. -/
def Bus.get_device (bus : Bus) (addr : Nat) : Option (Nat × Nat × BusDeviceEntry) :=
  match firstBefore bus.devices addr with
  | some e =>
    let offset := addr - e.range.base
    if offset < e.range.len then some (offset, addr, e.entry) else none
  | none => none

/-- anyhow .context wrapping used by Bus::read/Bus::write around a device
handler failure. -/
def contextWrap {α : Type} (label what : String) : HRes α → HRes α
  | .ok a => .ok a
  | .err e => .err (label ++ " failed to handle " ++ what ++ ": " ++ e)
  | .panicked => .panicked

/-- Invoke the read handler of a bus entry (either variant locks and calls
the device; the lock itself has no effect in this sequential model). -/
def dispatchRead (e : BusDeviceEntry) (io : BusAccessInfo) (n : Nat) : HRes (List Nat) :=
  contextWrap e.dev.label "read" (e.dev.read io n)

/-- Invoke the write handler of a bus entry. -/
def dispatchWrite (e : BusDeviceEntry) (io : BusAccessInfo) (data : List Nat) : HRes Unit :=
  contextWrap e.dev.label "write" (e.dev.write io data)

/-- Bus::read: n is the length of the caller buffer. -/
def Bus.read (bus : Bus) (addr n : Nat) : HRes (List Nat) :=
  match bus.get_device addr with
  | some (offset, address, entry) =>
    dispatchRead entry { offset := offset, address := address, id := bus.access_id } n
  | none => .err "No device suitable"

/-- Bus::write. -/
def Bus.write (bus : Bus) (addr : Nat) (data : List Nat) : HRes Unit :=
  match bus.get_device addr with
  | some (offset, address, entry) =>
    dispatchWrite entry { offset := offset, address := address, id := bus.access_id } data
  | none => .err "No device suitable"

/-- Bus error type from src/vmm/src/bus.rs. -/
inductive BusError where
  | empty
  | overlap (base len other_base other_len : Nat)
deriving DecidableEq

/-- BTreeMap::insert on the base-ordered map: inserts at the sorted
position; if a key with the same base exists its value is replaced while
the stored key (its len) is kept, and the Bool result is true (the map
returned Some(old)). -/
def mapInsert (base len : Nat) (d : BusDeviceEntry) :
    List BusEntryRec → List BusEntryRec × Bool
  | [] => ([⟨⟨base, len⟩, d⟩], false)
  | x :: rest =>
    if base < x.range.base then (⟨⟨base, len⟩, d⟩ :: x :: rest, false)
    else if base = x.range.base then (⟨x.range, d⟩ :: rest, true)
    else (x :: (mapInsert base len d rest).1, (mapInsert base len d rest).2)

/-- BTreeMap::remove with a key comparing by base only: removes the entry
with that base if present; the Bool result is whether one was removed. -/
def mapRemove (base : Nat) : List BusEntryRec → List BusEntryRec × Bool
  | [] => ([], false)
  | x :: rest =>
    if x.range.base = base then (rest, true)
    else (x :: (mapRemove base rest).1, (mapRemove base rest).2)

/-- Bus::insert.  Returns the call result together with the table state
after the call (the source mutates through a mutex; the error paths before
the BTreeMap::insert leave the table untouched, the duplicate-key path
has already replaced the stored value when it reports the error). -/
def Bus.insert (bus : Bus) (d : BusDev) (base len : Nat) :
    Except BusError Unit × Bus :=
  if len = 0 then (.error (.overlap base len 0 0), bus)
  else
    match bus.devices.find? (fun x => x.range.overlaps base len) with
    | some r => (.error (.overlap base len r.range.base r.range.len), bus)
    | none =>
      let p := mapInsert base len (.outerSync d) bus.devices
      if p.2 then (.error (.overlap base len base len), { bus with devices := p.1 })
      else (.ok (), { bus with devices := p.1 })

/-- Bus::insert_sync: identical to insert except the device is stored as
an InnerSync entry. -/
def Bus.insert_sync (bus : Bus) (d : BusDev) (base len : Nat) :
    Except BusError Unit × Bus :=
  if len = 0 then (.error (.overlap base len 0 0), bus)
  else
    match bus.devices.find? (fun x => x.range.overlaps base len) with
    | some r => (.error (.overlap base len r.range.base r.range.len), bus)
    | none =>
      let p := mapInsert base len (.innerSync d) bus.devices
      if p.2 then (.error (.overlap base len base len), { bus with devices := p.1 })
      else (.ok (), { bus with devices := p.1 })

/-- Bus::remove: the exact (base,len) pair must be present; removal then
happens through the base-keyed map remove. -/
def Bus.remove (bus : Bus) (base len : Nat) : Except BusError Unit × Bus :=
  if len = 0 then (.error (.overlap base len 0 0), bus)
  else if bus.devices.any (fun x => x.range.base = base && x.range.len = len) then
    let p := mapRemove base bus.devices
    if p.2 then (.ok (), { bus with devices := p.1 })
    else (.error .empty, bus)
  else (.error .empty, bus)

/-- Bus::list_memory_regions: concatenation of every device's
memory_regions report, in table order. -/
def Bus.list_memory_regions (bus : Bus) : List Nat :=
  bus.devices.foldl
    (fun acc e =>
      match e.entry.dev.memory_regions with
      | some regions => acc ++ regions
      | none => acc)
    []

/-! ## Guest memory (src/gunyah/src/guest_mem.rs, src/gunyah/src/vm.rs) -/

/-- src/gunyah/src/vm.rs ShareType. -/
inductive ShareType where
  | Share
  | Lend
deriving DecidableEq

/-- src/gunyah/src/vm.rs GuestMemoryAccess. -/
inductive GuestMemoryAccess where
  | R
  | Rw
  | Rx
  | Rwx
deriving DecidableEq

/-- A guest-memory backing fd: only its current byte length matters for
the region arithmetic verified here (GuestMemRegion::new validates
against the file's metadata length). -/
structure GuestMem where
  len : Nat
deriving DecidableEq

/-- src/gunyah/src/guest_mem.rs GuestMemRegion: an (off, size) window
into a backing.  The source stores size as NonZeroUsize. -/
structure GuestMemRegion where
  mem : GuestMem
  off : Nat
  size : Nat
deriving DecidableEq

/-- GuestMemRegion::new, including the NonZeroUsize conversion performed
by every caller on the size argument: size must be nonzero and the
window must lie within the backing's current length. -/
def GuestMemRegion.new (mem : GuestMem) (off size : Nat) :
    Except String GuestMemRegion :=
  if size = 0 then .error "size must be a NonZeroUsize"
  else if mem.len < off + size then
    .error "GuestMemRegion extents past end of GuestMem"
  else .ok ⟨mem, off, size⟩

/-- A hypervisor map/unmap call as issued by Vm::map_memory and
Vm::unmap_memory (both delegate to __map_memory, which passes
guest_addr, the share/access flags, the region's backing offset and the
region's full size; unmap additionally sets the UNMAP flag). -/
inductive HypCall where
  | mapMem (guest_addr : Nat) (share : ShareType) (access : GuestMemoryAccess)
      (off size : Nat)
  | unmapMem (guest_addr : Nat) (share : ShareType) (access : GuestMemoryAccess)
      (off size : Nat)
deriving DecidableEq

/-- True for the unmapMem variant. -/
def HypCall.isUnmap : HypCall → Bool
  | .unmapMem _ _ _ _ _ => true
  | .mapMem _ _ _ _ _ => false

/-! ## Mapped guest regions (src/vmm/src/memory.rs) -/

/-- src/vmm/src/memory.rs GunyahGuestMemoryRegion (the Vm handle is
modelled by the hypervisor-call traces the operations return). -/
structure GunyahGuestMemoryRegion where
  region : GuestMemRegion
  guest_address : Nat
  share_type : ShareType
  guest_access : GuestMemoryAccess
  unmap_on_drop : Bool
  regular_memory : Bool
deriving DecidableEq

/-- GunyahGuestMemoryRegion::new: issues vm.map_memory(guest_address,
share_type, guest_access, region) and stores the fields. -/
def GunyahGuestMemoryRegion.new (region : GuestMemRegion) (guest_address : Nat)
    (share_type : ShareType) (guest_access : GuestMemoryAccess)
    (unmap_on_drop regular_memory : Bool) :
    GunyahGuestMemoryRegion × List HypCall :=
  (⟨region, guest_address, share_type, guest_access, unmap_on_drop, regular_memory⟩,
   [.mapMem guest_address share_type guest_access region.off region.size])

/-- GunyahGuestMemoryRegion::punch_hole.  Returns the residual regions,
the updated self (unmap_on_drop cleared) and the trace of hypervisor
calls issued.  Mirrors the source exactly: the prefix residual keeps the
original backing offset with size = offset; end = offset + len is
compared against region_end = region.offset() + region.size(); the
suffix residual starts at backing offset region.offset() + end with size
region_end - end (u64 subtraction, no underflow at the inputs considered
here) and guest address guest_address + end; the single hypervisor call
is unmap_memory(guest_address + offset, share_type, guest_access,
region).  The assert on a fully-covering split aborts the process; that
path is modelled as an error value. -/
def GunyahGuestMemoryRegion.punch_hole (self : GunyahGuestMemoryRegion)
    (offset len : Nat) :
    Except String (List GunyahGuestMemoryRegion × GunyahGuestMemoryRegion × List HypCall) := do
  let pre ←
    if offset ≠ 0 then do
      let r ← GuestMemRegion.new self.region.mem self.region.off offset
      pure [{ self with region := r }]
    else pure []
  let e := offset + len
  let region_end := self.region.off + self.region.size
  let suf ←
    if e ≠ region_end then do
      let r ← GuestMemRegion.new self.region.mem (self.region.off + e) (region_end - e)
      pure [{ self with region := r, guest_address := self.guest_address + e }]
    else pure []
  let vec := pre ++ suf
  if vec.isEmpty then .error "assertion failed: vec is empty"
  else
    .ok (vec,
      { self with unmap_on_drop := false },
      [.unmapMem (self.guest_address + offset) self.share_type self.guest_access
        self.region.off self.region.size])

/-- BusDevice::memory_regions for GunyahGuestMemoryRegion: reports the
pair [guest_address, size] only when the region is marked as regular
memory. -/
def GunyahGuestMemoryRegion.memory_regions (r : GunyahGuestMemoryRegion) :
    Option (List Nat) :=
  if r.regular_memory then some [r.guest_address, r.region.size] else none

/-- The BusDevice implementation of GunyahGuestMemoryRegion
(src/vmm/src/memory.rs), over a backing byte store.  For the
loader/userspace identity a read maps the sub-window (erroring on a
zero-length buffer or when offset + len exceeds the region size, as
map_region does) and copies bytes out of the backing; for any vCPU
identity both handlers are todo!(), i.e. they panic. -/
def memRegionDev (r : GunyahGuestMemoryRegion) (backing : Nat → Nat) : BusDev :=
  { label := "GunyahGuestMemoryRegion"
    read := fun io n =>
      match io.id with
      | .vmmUserspace =>
        if n = 0 then .err "data length was zero"
        else if r.region.size < io.offset + n then .err "Offset and size incorrect"
        else .ok ((List.range n).map (fun i => backing (r.region.off + io.offset + i)))
      | .vcpu _ => .panicked
    write := fun io data =>
      match io.id with
      | .vmmUserspace =>
        if data.length = 0 then .err "data length was zero"
        else if r.region.size < io.offset + data.length then .err "Offset and size incorrect"
        else .ok ()
      | .vcpu _ => .panicked
    memory_regions := r.memory_regions }

/-! ## Virtual machine composition (src/vmm/src/virtual_machine.rs) -/

/-- The regular_memory flag computed by GunyahVirtualMachine::add_memory
from the share type: true exactly for Lend. -/
def regularMemoryFor : ShareType → Bool
  | .Share => false
  | .Lend => true

/-- GunyahVirtualMachine::add_memory, at the level of the mapped-region
record it creates: a fresh backing of exactly len bytes, the whole
extent wrapped as a region at backing offset 0, mapped at start, with
unmap_on_drop = false and regular_memory = (share_type == Lend). -/
def add_memory (start len : Nat) (share_type : ShareType)
    (guest_access : GuestMemoryAccess) : GunyahGuestMemoryRegion :=
  (GunyahGuestMemoryRegion.new ⟨⟨len⟩, 0, len⟩ start share_type guest_access
    false (regularMemoryFor share_type)).1

/-! ## vCPU run structure and run loop (src/vmm/src/vcpu.rs)

The gunyah_vcpu_run structure and its exit/resume constants come from the
generated bindings crate, whose generated source is not part of this
repository snapshot; the record below is modelled from the spec.  Only
the distinctness of the constants is ever used. -/

/-- Modelled from the spec: the exit-reason constant for an unknown exit
(the gunyah-bindings source defining GUNYAH_VCPU_EXIT_UNKNOWN is absent). -/
def GUNYAH_VCPU_EXIT_UNKNOWN : Nat := 0

/-- Modelled from the spec: the exit-reason constant for an MMIO exit. -/
def GUNYAH_VCPU_EXIT_MMIO : Nat := 1

/-- Modelled from the spec: the exit-reason constant for a status exit. -/
def GUNYAH_VCPU_EXIT_STATUS : Nat := 2

/-- Modelled from the spec: the exit-reason constant for a page fault. -/
def GUNYAH_VCPU_EXIT_PAGE_FAULT : Nat := 3

/-- Modelled from the spec: the resume action meaning the exit was
handled. -/
def GUNYAH_VCPU_RESUME_HANDLED : Nat := 0

/-- Modelled from the spec: the resume action reflecting a fault back
into the guest. -/
def GUNYAH_VCPU_RESUME_FAULT : Nat := 1

/-- Modelled from the spec: the MMIO member of the exit-record union of
the run structure: physical address, the exit data buffer, the access
length, the direction flag and the resume action.  The buffer holds the
bytes of the pending access; writing the provided bytes into it replaces
its contents. -/
structure MmioExit where
  phys_addr : Nat
  data : List Nat
  len : Nat
  is_write : Nat
  resume_action : Nat
deriving DecidableEq

/-- Modelled from the spec: the hypervisor-shared vcpu run structure:
immediate-exit flag, exit reason, and the exit record (the MMIO union
member, plus the page-fault member's physical address). -/
structure VcpuRun where
  immediate_exit : Nat
  exit_reason : Nat
  mmio : MmioExit
  page_fault_phys_addr : Nat
deriving DecidableEq

/-- GunyahVcpu::vmmio_provide_read: validates that the pending exit is an
MMIO read at phys_addr of exactly data's length, then writes data into
the exit buffer and marks the exit handled.  Each failed validation
returns an error before any mutation. -/
def vmmio_provide_read (run : VcpuRun) (phys_addr : Nat) (data : List Nat) :
    Except String VcpuRun :=
  if run.exit_reason ≠ GUNYAH_VCPU_EXIT_MMIO then
    .error "vCPU did not exit for mmio"
  else if run.mmio.is_write ≠ 0 then
    .error "vCPU did not exit for mmio read"
  else if run.mmio.phys_addr ≠ phys_addr then
    .error "vCPU did not exit for mmio read at phys_addr"
  else if run.mmio.len ≠ data.length then
    .error "vCPU length did not match"
  else
    .ok { run with
      mmio := { run.mmio with
        data := data
        resume_action := GUNYAH_VCPU_RESUME_HANDLED } }

/-- Outcome of one iteration of GunyahVcpu::run after the hypervisor run
call returned: the loop continues with an updated run structure, the
loop terminates returning an error, or the thread panics. -/
inductive StepResult where
  | next (run : VcpuRun)
  | fail (msg : String)
  | panicked
deriving DecidableEq

/-- One iteration of the continuous loop in GunyahVcpu::run, given the
exit record the hypervisor produced.  MMIO exits are decoded and routed
through the vCPU's bus handle: writes as bus.write(phys_addr,
data[0..len]), reads as bus.read(phys_addr, len) whose result bytes
replace the first len buffer bytes; the resume action becomes HANDLED on
handler success and FAULT on handler failure, and in both cases the loop
continues.  An is_write value other than 0/1 is unreachable!().  Unknown
exits, page faults and unrecognized codes end the loop with an error;
status exits are todo!(). -/
def run_step (bus : Bus) (run : VcpuRun) : StepResult :=
  if run.exit_reason = GUNYAH_VCPU_EXIT_UNKNOWN then
    .fail "Unexpected exit for unknown reason"
  else if run.exit_reason = GUNYAH_VCPU_EXIT_MMIO then
    if run.mmio.is_write = 1 then
      match bus.write run.mmio.phys_addr (run.mmio.data.take run.mmio.len) with
      | .ok _ => .next { run with mmio :=
          { run.mmio with resume_action := GUNYAH_VCPU_RESUME_HANDLED } }
      | .err _ => .next { run with mmio :=
          { run.mmio with resume_action := GUNYAH_VCPU_RESUME_FAULT } }
      | .panicked => .panicked
    else if run.mmio.is_write = 0 then
      match bus.read run.mmio.phys_addr run.mmio.len with
      | .ok bytes =>
        .next { run with mmio := { run.mmio with
          data := bytes ++ run.mmio.data.drop run.mmio.len
          resume_action := GUNYAH_VCPU_RESUME_HANDLED } }
      | .err _ => .next { run with mmio :=
          { run.mmio with resume_action := GUNYAH_VCPU_RESUME_FAULT } }
      | .panicked => .panicked
    else .panicked
  else if run.exit_reason = GUNYAH_VCPU_EXIT_STATUS then .panicked
  else if run.exit_reason = GUNYAH_VCPU_EXIT_PAGE_FAULT then
    .fail "Unexpected page fault"
  else .fail "Unknown exit reason"

/-! ## Bus table invariants and lookup lemmas -/

/-- Strict base ordering between bus entries (the BTreeMap key order). -/
def entryLt (a b : BusEntryRec) : Prop := a.range.base < b.range.base

/-- Mathematical disjointness of two entries' half-open address ranges. -/
def entryDisj (a b : BusEntryRec) : Prop :=
  a.range.base + a.range.len ≤ b.range.base ∨ b.range.base + b.range.len ≤ a.range.base

/-- Non-overlap in the sense of the source's saturating BusRange::overlaps. -/
def entryNoOv (a b : BusEntryRec) : Prop :=
  a.range.overlaps b.range.base b.range.len = false

/-- The Bus table invariant maintained by the source operations: keys
strictly sorted by base, all lengths positive, and pairwise non-overlap
in the saturating sense of BusRange::overlaps. -/
def Bus.wf (bus : Bus) : Prop :=
  bus.devices.Pairwise entryLt ∧ (∀ e ∈ bus.devices, 0 < e.range.len) ∧
    bus.devices.Pairwise entryNoOv

theorem fb_sound : ∀ {l : List BusEntryRec} {addr : Nat} {e : BusEntryRec},
    firstBefore l addr = some e → e ∈ l ∧ e.range.base ≤ addr := by
  intro l
  induction l with
  | nil => intro addr e h; simp [firstBefore] at h
  | cons x rest ih =>
    intro addr e h
    simp only [firstBefore] at h
    cases hfb : firstBefore rest addr with
    | some r =>
      rw [hfb] at h
      obtain ⟨hm, hle⟩ := ih hfb
      cases h
      exact ⟨List.mem_cons_of_mem _ hm, hle⟩
    | none =>
      rw [hfb] at h
      by_cases hb : x.range.base ≤ addr
      · rw [if_pos hb] at h
        cases h
        exact ⟨List.mem_cons_self _ _, hb⟩
      · rw [if_neg hb] at h
        cases h

theorem fb_none_of : ∀ {l : List BusEntryRec} {addr : Nat},
    (∀ f ∈ l, addr < f.range.base) → firstBefore l addr = none := by
  intro l
  induction l with
  | nil => intro addr _; rfl
  | cons x rest ih =>
    intro addr h
    have hrest : firstBefore rest addr = none :=
      ih (fun f hf => h f (List.mem_cons_of_mem _ hf))
    have hx : ¬ x.range.base ≤ addr := by
      have := h x (List.mem_cons_self _ _)
      omega
    simp only [firstBefore, hrest, if_neg hx]

theorem fb_exact : ∀ {l : List BusEntryRec} {addr : Nat} {e : BusEntryRec},
    l.Pairwise entryLt → (∀ f ∈ l, 0 < f.range.len) → l.Pairwise entryDisj →
    e ∈ l → e.range.base ≤ addr → addr < e.range.base + e.range.len →
    firstBefore l addr = some e := by
  intro l
  induction l with
  | nil => intro addr e _ _ _ he; cases he
  | cons x rest ih =>
    intro addr e hs hlen hd he h1 h2
    rw [List.pairwise_cons] at hs hd
    rcases List.mem_cons.mp he with he | he
    · subst he
      have hrest : firstBefore rest addr = none := by
        apply fb_none_of
        intro f hf
        have hlt : e.range.base < f.range.base := hs.1 f hf
        have hflen : 0 < f.range.len := hlen f (List.mem_cons_of_mem _ hf)
        rcases hd.1 f hf with hdj | hdj
        · omega
        · omega
      simp only [firstBefore, hrest, if_pos h1]
    · have hrec : firstBefore rest addr = some e :=
        ih hs.2 (fun f hf => hlen f (List.mem_cons_of_mem _ hf)) hd.2 he h1 h2
      simp only [firstBefore, hrec]

theorem get_device_of_mem {bus : Bus} {addr : Nat} {e : BusEntryRec}
    (hs : bus.devices.Pairwise entryLt)
    (hlen : ∀ f ∈ bus.devices, 0 < f.range.len)
    (hd : bus.devices.Pairwise entryDisj)
    (he : e ∈ bus.devices) (h1 : e.range.base ≤ addr)
    (h2 : addr < e.range.base + e.range.len) :
    bus.get_device addr = some (addr - e.range.base, addr, e.entry) := by
  unfold Bus.get_device
  rw [fb_exact hs hlen hd he h1 h2]
  have : addr - e.range.base < e.range.len := by omega
  simp only [this, if_pos]

theorem get_device_none {bus : Bus} {addr : Nat}
    (hout : ∀ e ∈ bus.devices,
      ¬(e.range.base ≤ addr ∧ addr < e.range.base + e.range.len)) :
    bus.get_device addr = none := by
  unfold Bus.get_device
  cases hfb : firstBefore bus.devices addr with
  | none => rfl
  | some f =>
    obtain ⟨hm, hle⟩ := fb_sound hfb
    have hnot := hout f hm
    have : ¬ (addr - f.range.base < f.range.len) := by omega
    simp only [this, if_neg, if_false]

/-- C1: for every Bus whose table is sorted, has positive lengths and
pairwise disjoint half-open ranges, Bus::read and Bus::write at any
address inside an entry (base, len), i.e. with base ≤ addr < base + len,
dispatch to exactly that entry's device at offset addr - base (found via
predecessor search), while an address inside no entry makes both calls
fail with the "No device suitable" error. -/
theorem c1_bus_dispatch (bus : Bus) (addr n : Nat) (data : List Nat)
    (hs : bus.devices.Pairwise entryLt)
    (hlen : ∀ e ∈ bus.devices, 0 < e.range.len)
    (hd : bus.devices.Pairwise entryDisj) :
    (∀ e ∈ bus.devices, e.range.base ≤ addr → addr < e.range.base + e.range.len →
      bus.get_device addr = some (addr - e.range.base, addr, e.entry) ∧
      bus.read addr n =
        dispatchRead e.entry ⟨addr - e.range.base, addr, bus.access_id⟩ n ∧
      bus.write addr data =
        dispatchWrite e.entry ⟨addr - e.range.base, addr, bus.access_id⟩ data) ∧
    ((∀ e ∈ bus.devices, ¬(e.range.base ≤ addr ∧ addr < e.range.base + e.range.len)) →
      bus.read addr n = .err "No device suitable" ∧
      bus.write addr data = .err "No device suitable") := by
  constructor
  · intro e he h1 h2
    have hg := get_device_of_mem hs hlen hd he h1 h2
    refine ⟨hg, ?_, ?_⟩
    · unfold Bus.read
      rw [hg]
    · unfold Bus.write
      rw [hg]
  · intro hout
    have hg := get_device_none hout
    constructor
    · unfold Bus.read
      rw [hg]
    · unfold Bus.write
      rw [hg]

/-- A device with the BusDevice trait's default handlers: reads fail with
"Unhandled read", writes with "Unhandled write", no memory regions. -/
def dummyDev (label : String) : BusDev :=
  { label := label
    read := fun _ _ => .err "Unhandled read"
    write := fun _ _ => .err "Unhandled write"
    memory_regions := none }

/-- A two-device bus used to instantiate the C1 theorem. -/
def c1Bus : Bus :=
  { devices :=
      [⟨⟨0x1000, 0x100⟩, .outerSync (dummyDev "a")⟩,
       ⟨⟨0x3000, 0x10⟩, .innerSync (dummyDev "b")⟩]
    access_id := .vmmUserspace }

/-- Witness for C1 at a concrete bus: address 0x1050 dispatches to the
first device at offset 0x50, address 0x500 hits no device. -/
theorem c1_bus_dispatch_witness :
    c1Bus.read 0x1050 8 =
      dispatchRead (BusDeviceEntry.outerSync (dummyDev "a"))
        ⟨0x50, 0x1050, AccessId.vmmUserspace⟩ 8 ∧
    c1Bus.read 0x500 8 = HRes.err "No device suitable" := by
  have hs : c1Bus.devices.Pairwise entryLt := by
    refine List.Pairwise.cons ?_ (List.pairwise_singleton _ _)
    intro b hb
    rw [List.mem_singleton] at hb
    subst hb
    show (0x1000 : Nat) < 0x3000
    norm_num
  have hlen : ∀ e ∈ c1Bus.devices, 0 < e.range.len := by
    intro e he
    rcases List.mem_cons.mp he with rfl | he
    · show (0 : Nat) < 0x100; norm_num
    · rw [List.mem_singleton] at he
      subst he
      show (0 : Nat) < 0x10; norm_num
  have hd : c1Bus.devices.Pairwise entryDisj := by
    refine List.Pairwise.cons ?_ (List.pairwise_singleton _ _)
    intro b hb
    rw [List.mem_singleton] at hb
    subst hb
    left
    show (0x1000 : Nat) + 0x100 ≤ 0x3000
    norm_num
  constructor
  · have h := c1_bus_dispatch c1Bus 0x1050 8 [] hs hlen hd
    have hmem : (⟨⟨0x1000, 0x100⟩, .outerSync (dummyDev "a")⟩ : BusEntryRec) ∈
        c1Bus.devices := List.mem_cons_self _ _
    exact (h.1 _ hmem (by norm_num) (by norm_num)).2.1
  · have h := c1_bus_dispatch c1Bus 0x500 8 [] hs hlen hd
    refine (h.2 ?_).1
    intro e he
    rcases List.mem_cons.mp he with rfl | he
    · intro hc
      simp only at hc
      omega
    · rw [List.mem_singleton] at he
      subst he
      intro hc
      simp only at hc
      omega

/-! ## Map operation lemmas -/

theorem overlaps_comm (r s : BusRange) :
    r.overlaps s.base s.len = s.overlaps r.base r.len := by
  unfold BusRange.overlaps
  exact Bool.and_comm _ _

theorem mapInsert_mem : ∀ {l : List BusEntryRec} {b n : Nat}
    {d : BusDeviceEntry} {y : BusEntryRec},
    y ∈ (mapInsert b n d l).1 →
    (∃ z ∈ l, y.range = z.range) ∨ y.range = ⟨b, n⟩ := by
  intro l
  induction l with
  | nil =>
    intro b n d y hy
    simp only [mapInsert, List.mem_singleton] at hy
    subst hy
    right; rfl
  | cons x rest ih =>
    intro b n d y hy
    simp only [mapInsert] at hy
    by_cases h1 : b < x.range.base
    · rw [if_pos h1] at hy
      rcases List.mem_cons.mp hy with rfl | hy
      · right; rfl
      · left; exact ⟨y, hy, rfl⟩
    · rw [if_neg h1] at hy
      by_cases h2 : b = x.range.base
      · rw [if_pos h2] at hy
        rcases List.mem_cons.mp hy with rfl | hy
        · left; exact ⟨x, List.mem_cons_self _ _, rfl⟩
        · left; exact ⟨y, List.mem_cons_of_mem _ hy, rfl⟩
      · rw [if_neg h2] at hy
        rcases List.mem_cons.mp hy with rfl | hy
        · left; exact ⟨y, List.mem_cons_self _ _, rfl⟩
        · rcases ih hy with ⟨z, hz, hzy⟩ | hnew
          · left; exact ⟨z, List.mem_cons_of_mem _ hz, hzy⟩
          · right; exact hnew

theorem mapInsert_pairwiseLt : ∀ {l : List BusEntryRec} {b n : Nat}
    {d : BusDeviceEntry}, l.Pairwise entryLt →
    ((mapInsert b n d l).1).Pairwise entryLt := by
  intro l
  induction l with
  | nil =>
    intro b n d _
    exact List.pairwise_singleton _ _
  | cons x rest ih =>
    intro b n d hs
    rw [List.pairwise_cons] at hs
    simp only [mapInsert]
    by_cases h1 : b < x.range.base
    · rw [if_pos h1]
      refine List.Pairwise.cons ?_ (List.Pairwise.cons hs.1 hs.2)
      intro y hy
      show b < y.range.base
      rcases List.mem_cons.mp hy with rfl | hy
      · exact h1
      · have := hs.1 y hy
        unfold entryLt at this
        omega
    · rw [if_neg h1]
      by_cases h2 : b = x.range.base
      · rw [if_pos h2]
        exact List.Pairwise.cons (fun y hy => hs.1 y hy) hs.2
      · rw [if_neg h2]
        refine List.Pairwise.cons ?_ (ih hs.2)
        intro y hy
        show x.range.base < y.range.base
        rcases mapInsert_mem hy with ⟨z, hz, hzy⟩ | hnew
        · have := hs.1 z hz
          unfold entryLt at this
          rw [hzy]
          exact this
        · have hyb : y.range.base = b := by rw [hnew]
          omega

theorem mapInsert_posLen : ∀ {l : List BusEntryRec} {b n : Nat}
    {d : BusDeviceEntry}, (∀ y ∈ l, 0 < y.range.len) → 0 < n →
    ∀ y ∈ (mapInsert b n d l).1, 0 < y.range.len := by
  intro l b n d hl hn y hy
  rcases mapInsert_mem hy with ⟨z, hz, hzy⟩ | hnew
  · rw [hzy]
    exact hl z hz
  · rw [hnew]
    exact hn

theorem mapInsert_pairwiseNoOv : ∀ {l : List BusEntryRec} {b n : Nat}
    {d : BusDeviceEntry}, l.Pairwise entryNoOv →
    (∀ z ∈ l, z.range.overlaps b n = false) →
    ((mapInsert b n d l).1).Pairwise entryNoOv := by
  intro l
  induction l with
  | nil =>
    intro b n d _ _
    exact List.pairwise_singleton _ _
  | cons x rest ih =>
    intro b n d hs hscan
    rw [List.pairwise_cons] at hs
    simp only [mapInsert]
    by_cases h1 : b < x.range.base
    · rw [if_pos h1]
      refine List.Pairwise.cons ?_ (List.Pairwise.cons hs.1 hs.2)
      intro y hy
      unfold entryNoOv
      show (BusRange.mk b n).overlaps y.range.base y.range.len = false
      rw [overlaps_comm]
      rcases List.mem_cons.mp hy with rfl | hy
      · exact hscan y (List.mem_cons_self _ _)
      · exact hscan y (List.mem_cons_of_mem _ hy)
    · rw [if_neg h1]
      by_cases h2 : b = x.range.base
      · rw [if_pos h2]
        exact List.Pairwise.cons (fun y hy => hs.1 y hy) hs.2
      · rw [if_neg h2]
        refine List.Pairwise.cons ?_
          (ih hs.2 (fun z hz => hscan z (List.mem_cons_of_mem _ hz)))
        intro y hy
        rcases mapInsert_mem hy with ⟨z, hz, hzy⟩ | hnew
        · have := hs.1 z hz
          unfold entryNoOv at this ⊢
          rw [hzy]
          exact this
        · unfold entryNoOv
          rw [hnew]
          rw [show (⟨b, n⟩ : BusRange).base = b from rfl,
            show (⟨b, n⟩ : BusRange).len = n from rfl]
          exact hscan x (List.mem_cons_self _ _)

theorem mapRemove_sublist : ∀ {l : List BusEntryRec} {b : Nat},
    List.Sublist (mapRemove b l).1 l := by
  intro l
  induction l with
  | nil =>
    intro b
    exact List.Sublist.refl _
  | cons x rest ih =>
    intro b
    simp only [mapRemove]
    by_cases h : x.range.base = b
    · rw [if_pos h]
      exact List.sublist_cons_self x rest
    · rw [if_neg h]
      exact List.Sublist.cons₂ x ih

theorem mapRemove_found : ∀ {l : List BusEntryRec} {b : Nat},
    (∃ x ∈ l, x.range.base = b) → (mapRemove b l).2 = true := by
  intro l
  induction l with
  | nil =>
    intro b h
    rcases h with ⟨x, hx, _⟩
    cases hx
  | cons x rest ih =>
    intro b h
    simp only [mapRemove]
    by_cases hx : x.range.base = b
    · rw [if_pos hx]
    · rw [if_neg hx]
      rcases h with ⟨z, hz, hzb⟩
      rcases List.mem_cons.mp hz with rfl | hz
      · exact absurd hzb hx
      · exact ih ⟨z, hz, hzb⟩

/-- C5 (amended): the invariant the Bus operations actually maintain is
strict base sortedness, positive lengths, and pairwise non-overlap in the
saturating sense of BusRange::overlaps; every insert, insert_sync and
remove maps a table satisfying it to a table satisfying it, whether the
call succeeds or fails.  (Mathematical half-open disjointness is not
maintained near the top of the address space; see the counterexample.) -/
theorem c5_invariant_amended (bus : Bus) (d ds : BusDev) (base len : Nat)
    (h : bus.wf) :
    (Bus.insert bus d base len).2.wf ∧
    (Bus.insert_sync bus ds base len).2.wf ∧
    (Bus.remove bus base len).2.wf := by
  obtain ⟨hs, hlen, hno⟩ := h
  have hwf : bus.wf := ⟨hs, hlen, hno⟩
  refine ⟨?_, ?_, ?_⟩
  · unfold Bus.insert
    by_cases h0 : len = 0
    · rw [if_pos h0]
      exact hwf
    · rw [if_neg h0]
      cases hf : bus.devices.find? (fun x => x.range.overlaps base len) with
      | some r => exact hwf
      | none =>
        have hscan : ∀ z ∈ bus.devices, z.range.overlaps base len = false := by
          intro z hz
          have := List.find?_eq_none.mp hf z hz
          simpa using this
        by_cases hrep : (mapInsert base len (.outerSync d) bus.devices).2 = true
        · rw [if_pos hrep]
          exact ⟨mapInsert_pairwiseLt hs,
            mapInsert_posLen hlen (by omega),
            mapInsert_pairwiseNoOv hno hscan⟩
        · rw [if_neg hrep]
          exact ⟨mapInsert_pairwiseLt hs,
            mapInsert_posLen hlen (by omega),
            mapInsert_pairwiseNoOv hno hscan⟩
  · unfold Bus.insert_sync
    by_cases h0 : len = 0
    · rw [if_pos h0]
      exact hwf
    · rw [if_neg h0]
      cases hf : bus.devices.find? (fun x => x.range.overlaps base len) with
      | some r => exact hwf
      | none =>
        have hscan : ∀ z ∈ bus.devices, z.range.overlaps base len = false := by
          intro z hz
          have := List.find?_eq_none.mp hf z hz
          simpa using this
        by_cases hrep : (mapInsert base len (.innerSync ds) bus.devices).2 = true
        · rw [if_pos hrep]
          exact ⟨mapInsert_pairwiseLt hs,
            mapInsert_posLen hlen (by omega),
            mapInsert_pairwiseNoOv hno hscan⟩
        · rw [if_neg hrep]
          exact ⟨mapInsert_pairwiseLt hs,
            mapInsert_posLen hlen (by omega),
            mapInsert_pairwiseNoOv hno hscan⟩
  · unfold Bus.remove
    by_cases h0 : len = 0
    · rw [if_pos h0]
      exact hwf
    · rw [if_neg h0]
      by_cases hany : bus.devices.any
          (fun x => x.range.base = base && x.range.len = len) = true
      · rw [if_pos hany]
        by_cases hfound : (mapRemove base bus.devices).2 = true
        · rw [if_pos hfound]
          exact ⟨List.Pairwise.sublist mapRemove_sublist hs,
            fun e he => hlen e (mapRemove_sublist.subset he),
            List.Pairwise.sublist mapRemove_sublist hno⟩
        · rw [if_neg hfound]
          exact hwf
      · rw [if_neg hany]
        exact hwf

/-- Witness for C5 (amended) at a concrete input: inserting one device
into the empty bus leaves a table satisfying the invariant. -/
theorem c5_invariant_amended_witness :
    ((Bus.new.insert (dummyDev "w") 0x100 0x10).2).wf := by
  have hwf : Bus.new.wf :=
    ⟨List.Pairwise.nil, fun e he => absurd he (List.not_mem_nil e), List.Pairwise.nil⟩
  exact (c5_invariant_amended Bus.new (dummyDev "w") (dummyDev "w") 0x100 0x10 hwf).1

/-- C5 counterexample: the claimed invariant "no two entries' half-open
ranges overlap" fails as stated.  Inserting (2^64-2, 4) and then
(2^64-1, 1) both succeed (the saturating overlap check does not fire),
leaving two entries whose half-open ranges both contain address
2^64 - 1. -/
theorem c5_counterexample :
    (Bus.new.insert (dummyDev "d1") (2 ^ 64 - 2) 4).1 = .ok () ∧
    ((Bus.new.insert (dummyDev "d1") (2 ^ 64 - 2) 4).2.insert (dummyDev "d2")
        (2 ^ 64 - 1) 1).1 = .ok () ∧
    ((Bus.new.insert (dummyDev "d1") (2 ^ 64 - 2) 4).2.insert (dummyDev "d2")
        (2 ^ 64 - 1) 1).2.devices.map (fun e => e.range) =
      [⟨2 ^ 64 - 2, 4⟩, ⟨2 ^ 64 - 1, 1⟩] ∧
    (2 ^ 64 - 2 : Nat) ≤ 2 ^ 64 - 1 ∧ (2 ^ 64 - 1 : Nat) < 2 ^ 64 - 2 + 4 ∧
    (2 ^ 64 - 1 : Nat) ≤ 2 ^ 64 - 1 ∧ (2 ^ 64 - 1 : Nat) < 2 ^ 64 - 1 + 1 := by
  refine ⟨rfl, rfl, rfl, by norm_num, by norm_num, le_refl _, by norm_num⟩

/-- C4 (amended): insert and insert_sync reject a zero-length range with
the zero-filled Overlap error and, when the candidate overlaps an
existing entry in the saturating sense of BusRange::overlaps, fail with
an Overlap error carrying the candidate and the conflicting range; in
both failure modes the table is unchanged.  (A candidate genuinely
intersecting an existing entry only at address 2^64-1 can escape the
saturating check; see the counterexample.) -/
theorem c4_insert_amended (bus : Bus) (d ds : BusDev) (base len : Nat) :
    (len = 0 →
      Bus.insert bus d base len = (.error (.overlap base len 0 0), bus) ∧
      Bus.insert_sync bus ds base len = (.error (.overlap base len 0 0), bus)) ∧
    (0 < len → (∃ x ∈ bus.devices, x.range.overlaps base len = true) →
      ∃ r ∈ bus.devices, r.range.overlaps base len = true ∧
        Bus.insert bus d base len =
          (.error (.overlap base len r.range.base r.range.len), bus) ∧
        Bus.insert_sync bus ds base len =
          (.error (.overlap base len r.range.base r.range.len), bus)) := by
  constructor
  · intro h0
    constructor
    · unfold Bus.insert
      rw [if_pos h0]
    · unfold Bus.insert_sync
      rw [if_pos h0]
  · intro hpos hex
    cases hf : bus.devices.find? (fun x => x.range.overlaps base len) with
    | none =>
      exfalso
      rcases hex with ⟨x, hx, hox⟩
      have := List.find?_eq_none.mp hf x hx
      simp [hox] at this
    | some r =>
      refine ⟨r, List.mem_of_find?_eq_some hf, ?_, ?_, ?_⟩
      · have := List.find?_some hf
        simpa using this
      · unfold Bus.insert
        rw [if_neg (by omega), hf]
      · unfold Bus.insert_sync
        rw [if_neg (by omega), hf]

/-- A one-device bus used to instantiate the amended C4 theorem. -/
def c4Bus : Bus := (Bus.new.insert (dummyDev "w1") 0x1000 0x100).2

/-- Witness for C4 (amended): inserting (0x1080, 0x10), which overlaps
the existing (0x1000, 0x100), fails with the Overlap error carrying both
ranges and leaves the table unchanged. -/
theorem c4_insert_amended_witness :
    ∃ r ∈ c4Bus.devices, r.range.overlaps 0x1080 0x10 = true ∧
      Bus.insert c4Bus (dummyDev "w2") 0x1080 0x10 =
        (.error (.overlap 0x1080 0x10 r.range.base r.range.len), c4Bus) ∧
      Bus.insert_sync c4Bus (dummyDev "w2") 0x1080 0x10 =
        (.error (.overlap 0x1080 0x10 r.range.base r.range.len), c4Bus) :=
  (c4_insert_amended c4Bus (dummyDev "w2") (dummyDev "w2") 0x1080 0x10).2
    (by norm_num)
    ⟨⟨⟨0x1000, 0x100⟩, .outerSync (dummyDev "w1")⟩, List.mem_cons_self _ _, rfl⟩

/-- C4 counterexample: a candidate range overlapping an existing entry
for which insert nevertheless succeeds.  The bus holds (2^64-2, 4);
inserting (2^64-1, 1) succeeds although the two half-open ranges share
address 2^64-1, because the overlap scan saturates base+len at 2^64-1. -/
theorem c4_counterexample :
    (Bus.new.insert (dummyDev "d1") (2 ^ 64 - 2) 4).1 = .ok () ∧
    ((Bus.new.insert (dummyDev "d1") (2 ^ 64 - 2) 4).2.insert (dummyDev "d2")
        (2 ^ 64 - 1) 1).1 = .ok () ∧
    (2 ^ 64 - 2 : Nat) ≤ 2 ^ 64 - 1 ∧ (2 ^ 64 - 1 : Nat) < 2 ^ 64 - 2 + 4 ∧
    (2 ^ 64 - 1 : Nat) ≤ 2 ^ 64 - 1 ∧ (2 ^ 64 - 1 : Nat) < 2 ^ 64 - 1 + 1 := by
  refine ⟨rfl, rfl, by norm_num, by norm_num, le_refl _, by norm_num⟩

/-- C6 counterexample: Bus::remove with len = 0 fails with the
zero-length Overlap error, not with the Empty error the claim states. -/
theorem c6_counterexample :
    Bus.remove Bus.new 0 0 = (.error (.overlap 0 0 0 0), Bus.new) ∧
    BusError.overlap 0 0 0 0 ≠ BusError.empty :=
  ⟨rfl, by decide⟩

/-- C6 (amended): remove(base, len) succeeds iff an entry with exactly
that (base, len) key is present; a zero-length remove fails with the
zero-length Overlap error, any other miss fails with Empty; every failed
remove leaves the table unchanged. -/
theorem c6_remove_amended (bus : Bus) (base len : Nat) (h : bus.wf) :
    ((∃ u, (Bus.remove bus base len).1 = Except.ok u) ↔
      ∃ e ∈ bus.devices, e.range = ⟨base, len⟩) ∧
    (len = 0 → Bus.remove bus base len = (.error (.overlap base len 0 0), bus)) ∧
    (0 < len → (∀ e ∈ bus.devices, e.range ≠ ⟨base, len⟩) →
      Bus.remove bus base len = (.error .empty, bus)) ∧
    (∀ msg, (Bus.remove bus base len).1 = .error msg →
      (Bus.remove bus base len).2 = bus) := by
  obtain ⟨hs, hlen, hno⟩ := h
  have hmain : ∀ e ∈ bus.devices, e.range = ⟨base, len⟩ →
      Bus.remove bus base len =
        (Except.ok (), { bus with devices := (mapRemove base bus.devices).1 }) := by
    intro e he her
    have h0 : len ≠ 0 := by
      have h2 := hlen e he
      rw [her] at h2
      have h3 : 0 < len := h2
      omega
    have hany : bus.devices.any
        (fun x => x.range.base = base && x.range.len = len) = true := by
      rw [List.any_eq_true]
      refine ⟨e, he, ?_⟩
      rw [her]
      simp
    have hfound : (mapRemove base bus.devices).2 = true := by
      apply mapRemove_found
      refine ⟨e, he, ?_⟩
      rw [her]
    unfold Bus.remove
    rw [if_neg h0, if_pos hany, if_pos hfound]
  have hmiss : 0 < len → (∀ e ∈ bus.devices, e.range ≠ ⟨base, len⟩) →
      Bus.remove bus base len = (.error .empty, bus) := by
    intro hpos hne
    have hany : ¬ bus.devices.any
        (fun x => x.range.base = base && x.range.len = len) = true := by
      rw [List.any_eq_true]
      rintro ⟨x, hx, hpx⟩
      simp only [Bool.and_eq_true, decide_eq_true_eq] at hpx
      apply hne x hx
      cases hxr : x.range
      rw [hxr] at hpx
      simp only at hpx
      rw [hpx.1, hpx.2]
    unfold Bus.remove
    rw [if_neg (by omega), if_neg hany]
  refine ⟨?_, ?_, hmiss, ?_⟩
  · constructor
    · rintro ⟨u, hu⟩
      by_contra hne
      push_neg at hne
      by_cases h0 : len = 0
      · unfold Bus.remove at hu
        rw [if_pos h0] at hu
        cases hu
      · rw [hmiss (by omega) hne] at hu
        cases hu
    · rintro ⟨e, he, her⟩
      rw [hmain e he her]
      exact ⟨(), rfl⟩
  · intro h0
    unfold Bus.remove
    rw [if_pos h0]
  · intro msg hmsg
    unfold Bus.remove at hmsg ⊢
    by_cases h0 : len = 0
    · rw [if_pos h0]
    · rw [if_neg h0] at hmsg ⊢
      by_cases hany : bus.devices.any
          (fun x => x.range.base = base && x.range.len = len) = true
      · rw [if_pos hany] at hmsg ⊢
        by_cases hfound : (mapRemove base bus.devices).2 = true
        · rw [if_pos hfound] at hmsg
          cases hmsg
        · rw [if_neg hfound]
      · rw [if_neg hany]

/-- A one-device bus used to instantiate the amended C6 theorem. -/
def c6Bus : Bus :=
  { devices := [⟨⟨7, 3⟩, .outerSync (dummyDev "w1")⟩]
    access_id := .vmmUserspace }

/-- Witness for C6 (amended): removing (7, 5) from a table holding
(7, 3) fails with Empty — length must match, base alone is not enough. -/
theorem c6_remove_amended_witness :
    Bus.remove c6Bus 7 5 = (.error .empty, c6Bus) := by
  have hwf : c6Bus.wf := by
    refine ⟨?_, ?_, ?_⟩
    · exact List.pairwise_singleton _ _
    · intro e he
      replace he : e ∈
          [(⟨⟨7, 3⟩, BusDeviceEntry.outerSync (dummyDev "w1")⟩ : BusEntryRec)] := he
      rw [List.mem_singleton] at he
      subst he
      show (0 : Nat) < 3
      norm_num
    · exact List.pairwise_singleton _ _
  refine (c6_remove_amended c6Bus 7 5 hwf).2.2.1 (by norm_num) ?_
  intro e he
  replace he : e ∈
      [(⟨⟨7, 3⟩, BusDeviceEntry.outerSync (dummyDev "w1")⟩ : BusEntryRec)] := he
  rw [List.mem_singleton] at he
  subst he
  intro hc
  have : (3 : Nat) = 5 := congrArg BusRange.len hc
  omega

/-- C2: FALSIFIED as stated — the source compares the window-relative
end = offset + len against the backing-absolute region_end =
region.offset() + region.size().  Evaluated at a window of size
S = 0x2000 whose region sits at backing offset 0x1000, a trailing-edge
split (O = 0x1000, O + L = S) returns TWO residuals instead of the
claimed single prefix: the spurious suffix covers backing bytes
[0x3000, 0x4000), beyond the original window, at guest address 0x82000. -/
theorem c2_punch_hole_eval :
    GunyahGuestMemoryRegion.punch_hole
      ⟨⟨⟨0x4000⟩, 0x1000, 0x2000⟩, 0x80000, .Lend, .Rw, true, true⟩
      0x1000 0x1000 =
    .ok ([⟨⟨⟨0x4000⟩, 0x1000, 0x1000⟩, 0x80000, .Lend, .Rw, true, true⟩,
          ⟨⟨⟨0x4000⟩, 0x3000, 0x1000⟩, 0x82000, .Lend, .Rw, true, true⟩],
         ⟨⟨⟨0x4000⟩, 0x1000, 0x2000⟩, 0x80000, .Lend, .Rw, false, true⟩,
         [.unmapMem 0x81000 .Lend .Rw 0x1000 0x2000]) := rfl

/-- C3: FALSIFIED as stated — evaluation of the hypervisor-call trace of
a punch_hole on a region mapped at guest address 0x80000 (map call
recorded by GunyahGuestMemoryRegion::new).  Splitting at offset 0x1000
issues a single unmap at guest address 0x81000 = original + offset, not
at the original address used to map, and issues no map call at all for
the residual regions. -/
theorem c3_punch_hole_trace_eval :
    (GunyahGuestMemoryRegion.new ⟨⟨0x3000⟩, 0, 0x3000⟩ 0x80000 .Lend .Rw true true).2 =
      [.mapMem 0x80000 .Lend .Rw 0 0x3000] ∧
    GunyahGuestMemoryRegion.punch_hole
      (GunyahGuestMemoryRegion.new ⟨⟨0x3000⟩, 0, 0x3000⟩ 0x80000 .Lend .Rw true true).1
      0x1000 0x1000 =
      .ok ([⟨⟨⟨0x3000⟩, 0, 0x1000⟩, 0x80000, .Lend, .Rw, true, true⟩,
            ⟨⟨⟨0x3000⟩, 0x2000, 0x1000⟩, 0x82000, .Lend, .Rw, true, true⟩],
           ⟨⟨⟨0x3000⟩, 0, 0x3000⟩, 0x80000, .Lend, .Rw, false, true⟩,
           [.unmapMem 0x81000 .Lend .Rw 0 0x3000]) ∧
    (0x81000 : Nat) ≠ 0x80000 ∧
    HypCall.isUnmap (.unmapMem 0x81000 .Lend .Rw 0 0x3000) = true := by
  exact ⟨rfl, rfl, by norm_num, rfl⟩

/-- C7: vmmio_provide_read completes a pending MMIO read exit whose
address, direction and length match, writing the data into the exit
buffer and setting the resume action to Handled; if the pending exit is
not MMIO, is a write, has a different address, or a different length, it
returns an error and produces no mutated run structure. -/
theorem c7_vmmio_provide_read (run : VcpuRun) (phys_addr : Nat) (data : List Nat) :
    (run.exit_reason = GUNYAH_VCPU_EXIT_MMIO → run.mmio.is_write = 0 →
      run.mmio.phys_addr = phys_addr → run.mmio.len = data.length →
      vmmio_provide_read run phys_addr data =
        .ok { run with mmio := { run.mmio with
          data := data
          resume_action := GUNYAH_VCPU_RESUME_HANDLED } }) ∧
    (run.exit_reason ≠ GUNYAH_VCPU_EXIT_MMIO ∨ run.mmio.is_write ≠ 0 ∨
      run.mmio.phys_addr ≠ phys_addr ∨ run.mmio.len ≠ data.length →
      ∃ msg, vmmio_provide_read run phys_addr data = .error msg) := by
  constructor
  · intro h1 h2 h3 h4
    unfold vmmio_provide_read
    rw [if_neg (fun hc => hc h1), if_neg (fun hc => hc h2),
      if_neg (fun hc => hc h3), if_neg (fun hc => hc h4)]
  · intro hbad
    unfold vmmio_provide_read
    by_cases e1 : run.exit_reason ≠ GUNYAH_VCPU_EXIT_MMIO
    · exact ⟨_, by rw [if_pos e1]⟩
    · rw [if_neg e1]
      by_cases e2 : run.mmio.is_write ≠ 0
      · exact ⟨_, by rw [if_pos e2]⟩
      · rw [if_neg e2]
        by_cases e3 : run.mmio.phys_addr ≠ phys_addr
        · exact ⟨_, by rw [if_pos e3]⟩
        · rw [if_neg e3]
          by_cases e4 : run.mmio.len ≠ data.length
          · exact ⟨_, by rw [if_pos e4]⟩
          · exfalso
            push_neg at e1 e2 e3 e4
            rcases hbad with h | h | h | h
            · exact h e1
            · exact h e2
            · exact h e3
            · exact h e4

/-- A pending 4-byte MMIO read exit at 0x6000, used to instantiate the
C7 theorem. -/
def c7Run : VcpuRun :=
  { immediate_exit := 0
    exit_reason := GUNYAH_VCPU_EXIT_MMIO
    mmio :=
      { phys_addr := 0x6000
        data := [0, 0, 0, 0, 0, 0, 0, 0]
        len := 4
        is_write := 0
        resume_action := 2 }
    page_fault_phys_addr := 0 }

/-- Witness for C7: providing 4 bytes for the pending 4-byte read at
0x6000 succeeds, fills the buffer and marks the exit Handled. -/
theorem c7_vmmio_provide_read_witness :
    vmmio_provide_read c7Run 0x6000 [0xd, 0xf0, 0xad, 0xde] =
      .ok { c7Run with mmio := { c7Run.mmio with
        data := [0xd, 0xf0, 0xad, 0xde]
        resume_action := GUNYAH_VCPU_RESUME_HANDLED } } :=
  (c7_vmmio_provide_read c7Run 0x6000 [0xd, 0xf0, 0xad, 0xde]).1 rfl rfl rfl rfl

/-- C8: one iteration of the continuous run loop decodes an MMIO exit
and routes it through the vCPU's bus handle as a write of data[0..len]
or a read of len bytes; the resume action becomes Handled when the bus
call succeeds and Fault when it fails, and in both cases the loop
continues (result .next, not .fail); an Unknown exit terminates the loop
with an error. -/
theorem c8_run_step (bus : Bus) (run : VcpuRun) :
    (run.exit_reason = GUNYAH_VCPU_EXIT_MMIO → run.mmio.is_write = 1 →
      (∀ u, bus.write run.mmio.phys_addr (run.mmio.data.take run.mmio.len) = .ok u →
        run_step bus run = .next { run with mmio :=
          { run.mmio with resume_action := GUNYAH_VCPU_RESUME_HANDLED } }) ∧
      (∀ msg, bus.write run.mmio.phys_addr (run.mmio.data.take run.mmio.len) = .err msg →
        run_step bus run = .next { run with mmio :=
          { run.mmio with resume_action := GUNYAH_VCPU_RESUME_FAULT } })) ∧
    (run.exit_reason = GUNYAH_VCPU_EXIT_MMIO → run.mmio.is_write = 0 →
      (∀ bytes, bus.read run.mmio.phys_addr run.mmio.len = .ok bytes →
        run_step bus run = .next { run with mmio := { run.mmio with
          data := bytes ++ run.mmio.data.drop run.mmio.len
          resume_action := GUNYAH_VCPU_RESUME_HANDLED } }) ∧
      (∀ msg, bus.read run.mmio.phys_addr run.mmio.len = .err msg →
        run_step bus run = .next { run with mmio :=
          { run.mmio with resume_action := GUNYAH_VCPU_RESUME_FAULT } })) ∧
    (run.exit_reason = GUNYAH_VCPU_EXIT_UNKNOWN →
      run_step bus run = .fail "Unexpected exit for unknown reason") := by
  refine ⟨?_, ?_, ?_⟩
  · intro hmmio hw
    have hne : ¬ run.exit_reason = GUNYAH_VCPU_EXIT_UNKNOWN := by
      rw [hmmio]
      decide
    constructor
    · intro u hok
      unfold run_step
      rw [if_neg hne, if_pos hmmio, if_pos hw, hok]
    · intro msg herr
      unfold run_step
      rw [if_neg hne, if_pos hmmio, if_pos hw, herr]
  · intro hmmio hw
    have hne : ¬ run.exit_reason = GUNYAH_VCPU_EXIT_UNKNOWN := by
      rw [hmmio]
      decide
    have hne1 : ¬ run.mmio.is_write = 1 := by omega
    constructor
    · intro bytes hok
      unfold run_step
      rw [if_neg hne, if_pos hmmio, if_neg hne1, if_pos hw, hok]
    · intro msg herr
      unfold run_step
      rw [if_neg hne, if_pos hmmio, if_neg hne1, if_pos hw, herr]
  · intro hunk
    unfold run_step
    rw [if_pos hunk]

/-- A device whose handlers always succeed, used to instantiate the C8
theorem. -/
def okDev : BusDev :=
  { label := "ok"
    read := fun _ n => .ok (List.replicate n 0)
    write := fun _ _ => .ok ()
    memory_regions := none }

/-- A vCPU-identity bus with the always-ok device at 0x6000. -/
def c8Bus : Bus :=
  { devices := [⟨⟨0x6000, 8⟩, .innerSync okDev⟩]
    access_id := .vcpu 0 }

/-- An 8-byte MMIO write exit at 0x6000, used to instantiate the C8
theorem. -/
def c8Run : VcpuRun :=
  { immediate_exit := 0
    exit_reason := GUNYAH_VCPU_EXIT_MMIO
    mmio :=
      { phys_addr := 0x6000
        data := [0, 0, 0, 0, 0, 0, 0, 0]
        len := 8
        is_write := 1
        resume_action := 2 }
    page_fault_phys_addr := 0 }

/-- Witness for C8: the MMIO write exit at 0x6000 is routed to the
device, succeeds, and the loop continues with resume action Handled. -/
theorem c8_run_step_witness :
    run_step c8Bus c8Run = .next { c8Run with mmio :=
      { c8Run.mmio with resume_action := GUNYAH_VCPU_RESUME_HANDLED } } :=
  ((c8_run_step c8Bus c8Run).1 rfl rfl).1 () rfl

/-- C9: add_memory marks the created region as regular memory exactly
when the share type is Lend, so its memory_regions report (and the
bus-level regular-memory listing) is the pair [guest_address, size] for
Lend and empty for Share. -/
theorem c9_add_memory_regular (start len : Nat) (share : ShareType)
    (access : GuestMemoryAccess) (backing : Nat → Nat) :
    (add_memory start len share access).regular_memory = regularMemoryFor share ∧
    (add_memory start len share access).memory_regions =
      (if share = .Lend then some [start, len] else none) ∧
    Bus.list_memory_regions
      { devices := [⟨⟨start, len⟩,
          .outerSync (memRegionDev (add_memory start len share access) backing)⟩]
        access_id := .vmmUserspace } =
      (if share = .Lend then [start, len] else []) := by
  cases share <;>
    simp [add_memory, GunyahGuestMemoryRegion.new, regularMemoryFor,
      GunyahGuestMemoryRegion.memory_regions, Bus.list_memory_regions,
      memRegionDev, BusDeviceEntry.dev]

/-- C10: the GunyahGuestMemoryRegion bus handlers are only implemented
for the loader/userspace identity; on a bus whose accessor identity is a
vCPU, any read or write that reaches such a device panics (todo!), so an
MMIO exit routed by the run loop into a still-mapped memory region ends
in a panic rather than in a Handled or Fault resume action. -/
theorem c10_memregion_vcpu_panics (r : GunyahGuestMemoryRegion)
    (backing : Nat → Nat) (vid : Nat) (bus : Bus) (addr n off : Nat)
    (data : List Nat) (v : BusDeviceEntry)
    (hid : bus.access_id = .vcpu vid)
    (hget : bus.get_device addr = some (off, addr, v))
    (hv : v.dev = memRegionDev r backing) :
    bus.read addr n = .panicked ∧
    bus.write addr data = .panicked ∧
    (∀ run : VcpuRun, run.exit_reason = GUNYAH_VCPU_EXIT_MMIO →
      run.mmio.phys_addr = addr →
      run.mmio.is_write = 0 ∨ run.mmio.is_write = 1 →
      run_step bus run = .panicked) := by
  have hreadAll : ∀ m : Nat, bus.read addr m = .panicked := by
    intro m
    unfold Bus.read
    rw [hget]
    show contextWrap v.dev.label "read" (v.dev.read ⟨off, addr, bus.access_id⟩ m) =
      HRes.panicked
    rw [hv, hid]
    rfl
  have hwriteAll : ∀ d : List Nat, bus.write addr d = .panicked := by
    intro d
    unfold Bus.write
    rw [hget]
    show contextWrap v.dev.label "write" (v.dev.write ⟨off, addr, bus.access_id⟩ d) =
      HRes.panicked
    rw [hv, hid]
    rfl
  refine ⟨hreadAll n, hwriteAll data, ?_⟩
  intro run hmmio hphys hw
  have hne : ¬ run.exit_reason = GUNYAH_VCPU_EXIT_UNKNOWN := by
    rw [hmmio]
    decide
  rcases hw with hw | hw
  · have hne1 : ¬ run.mmio.is_write = 1 := by omega
    unfold run_step
    rw [if_neg hne, if_pos hmmio, if_neg hne1, if_pos hw, hphys, hreadAll]
  · unfold run_step
    rw [if_neg hne, if_pos hmmio, if_pos hw, hphys, hwriteAll]

/-- A mapped region and vCPU-identity bus used to instantiate the C10
theorem. -/
def c10Region : GunyahGuestMemoryRegion :=
  ⟨⟨⟨0x1000⟩, 0, 0x1000⟩, 0x2000, .Share, .Rw, false, false⟩

/-- The bus routing 0x2000..0x3000 to c10Region with vCPU identity 1. -/
def c10Bus : Bus :=
  { devices := [⟨⟨0x2000, 0x1000⟩, .outerSync (memRegionDev c10Region (fun _ => 0))⟩]
    access_id := .vcpu 1 }

/-- Witness for C10: a vCPU-identity read of the mapped region panics. -/
theorem c10_memregion_vcpu_panics_witness :
    c10Bus.read 0x2500 8 = .panicked :=
  (c10_memregion_vcpu_panics c10Region (fun _ => 0) 1 c10Bus 0x2500 8 0x500 []
    (.outerSync (memRegionDev c10Region (fun _ => 0))) rfl rfl rfl).1

end GunyahVMM
